import Mathlib

set_option maxRecDepth 8192

/-!
Verification of the podserve repository: a shallow embedding in Lean 4 of the
catalog builder (src/feed.go), the catalog store with its refresh loop and
request handlers (src/main.go), and the wrapping response writer
(src/rwriter.go), together with theorems settling the frozen claims about
the natural-language specification.

Conventions of the embedding:
  * Go byte strings are modelled as Lean `String` / `List Char`; the media
    files in this repository use ASCII names, where the two notions agree.
  * Go `time.Time` values are modelled as `Nat` (Unix seconds, UTC).
  * Fallible Go functions return `Except` / `Option`; a Go panic is the
    distinguished error `GoFail.panicked`.
  * The file system visible to `fs.WalkDir` is modelled as a tree of
    named nodes; directory listings appear in the (lexical) order Go
    walks them.  A file carries an `openOk` flag modelling whether
    `os.Open` succeeds on it.
  * Go's `html/template` execution of the fixed `RSSTemplate` is modelled
    as the literal interleaving of the template text with the interpolated,
    HTML-escaped values (Go escapes `<`, `>`, `&` and both quote characters
    in every interpolation; the extra URL normalisation Go applies inside
    the two URL-typed attributes preserves every property used here, in
    particular that an interpolated value never contains a raw `<`).
-/

/-! ## Small string utilities shared by the embedding -/

/-- Decimal digit characters, used to model Go's base-10 printing. -/
def digitChar (d : Nat) : Char :=
  ("0123456789".data).getD d '0'

/-- Auxiliary decimal rendering with an explicit digit budget (the budget
`n + 1` always suffices, and structural recursion on it lets proofs
evaluate the function). -/
def natCharsAux : Nat → Nat → List Char
  | 0, _ => []
  | fuel + 1, n =>
    if n < 10 then [digitChar n]
    else natCharsAux fuel (n / 10) ++ [digitChar (n % 10)]

/-- Decimal rendering of a natural number (Go `strconv`/`fmt` base 10). -/
def natChars (n : Nat) : List Char := natCharsAux (n + 1) n

/-- Decimal rendering of a natural number as a `String`. -/
def natStr (n : Nat) : String := ⟨natChars n⟩

/-- Decimal rendering of an integer (Go `int64` printing). -/
def intStr (i : Int) : String :=
  if i < 0 then "-" ++ natStr (-i).toNat else natStr i.toNat

/-- Escape of a single character as performed by Go `html/template` on every
interpolated value (its `htmlReplacementTable`): `<`, `>`, `&` and the two
quote characters are replaced, all other characters pass through. -/
def escChar (c : Char) : List Char :=
  if c = '<' then "&lt;".data
  else if c = '>' then "&gt;".data
  else if c = '&' then "&amp;".data
  else if c = Char.ofNat 39 then "&#39;".data
  else if c = Char.ofNat 34 then "&#34;".data
  else [c]

/-- HTML escaping of a whole string, as `html/template` applies to each
interpolation of the RSS template. -/
def escapeHTML (s : String) : String :=
  ⟨s.data.foldr (fun c acc => escChar c ++ acc) []⟩

/-! ## Time formatting (src/feed.go `TimeRFC2822`)

Go renders each item's modification time with the layout
`"Mon, Jan 02 2006 15:04:05 MST"`.  Time values are Unix seconds in UTC;
the civil-date conversion below is the standard days-from-epoch algorithm. -/

/-- Three-letter weekday names in Go's order (Unix day 0 was a Thursday). -/
def weekdayName (n : Nat) : String :=
  (["Sun", "Mon", "Tue", "Wed", "Thu", "Fri", "Sat"]).getD n "Sun"

/-- Three-letter month names, 1-indexed. -/
def monthName (n : Nat) : String :=
  (["Jan", "Feb", "Mar", "Apr", "May", "Jun", "Jul", "Aug", "Sep", "Oct",
    "Nov", "Dec"]).getD (n - 1) "Jan"

/-- Civil date (year, month, day) from days since 1970-01-01. -/
def civilFromDays (z0 : Nat) : Nat × Nat × Nat :=
  let z := z0 + 719468
  let era := z / 146097
  let doe := z % 146097
  let yoe := (doe - doe / 1460 + doe / 36524 - doe / 146096) / 365
  let y := yoe + era * 400
  let doy := doe - (365 * yoe + yoe / 4 - yoe / 100)
  let mp := (5 * doy + 2) / 153
  let d := doy - (153 * mp + 2) / 5 + 1
  let mo := if mp < 10 then mp + 3 else mp - 9
  (if mo ≤ 2 then y + 1 else y, mo, d)

/-- Zero-padded two-digit rendering. -/
def two (n : Nat) : String :=
  (if n < 10 then "0" else "") ++ natStr n

/-- The `timeRFC2822` template helper of src/feed.go: format a Unix-seconds
instant with layout `"Mon, Jan 02 2006 15:04:05 MST"` (zone rendered UTC). -/
def timeRFC2822 (t : Nat) : String :=
  let days := t / 86400
  let secs := t % 86400
  let c := civilFromDays days
  weekdayName ((days + 4) % 7) ++ ", " ++ monthName c.2.1 ++ " " ++
    two c.2.2 ++ " " ++ natStr c.1 ++ " " ++ two (secs / 3600) ++ ":" ++
    two ((secs % 3600) / 60) ++ ":" ++ two (secs % 60) ++ " UTC"

/-! ## URL path escaping (Go `net/url.PathEscape`) -/

/-- Uppercase hexadecimal digit. -/
def hexDigit (n : Nat) : Char :=
  ("0123456789ABCDEF".data).getD n '0'

/-- UTF-8 byte sequence of a character, used because Go percent-escapes
individual UTF-8 bytes. -/
def utf8Bytes (c : Char) : List Nat :=
  let n := c.toNat
  if n < 128 then [n]
  else if n < 2048 then [192 + n / 64, 128 + n % 64]
  else if n < 65536 then [224 + n / 4096, 128 + (n / 64) % 64, 128 + n % 64]
  else [240 + n / 262144, 128 + (n / 4096) % 64, 128 + (n / 64) % 64,
        128 + n % 64]

/-- Characters `url.PathEscape` leaves unescaped in a path segment:
alphanumerics, the RFC 3986 unreserved marks, and `$ & + : = @`. -/
def pathUnescaped (c : Char) : Bool :=
  c.isAlphanum || c ∈ ['-', '_', '.', '~', '$', '&', '+', ':', '=', '@']

/-- Go `url.PathEscape`: percent-escape every byte of every character that
is not allowed to appear literally in a path segment. -/
def pathEscape (s : String) : String :=
  ⟨s.data.foldr
    (fun c acc =>
      if pathUnescaped c then c :: acc
      else (utf8Bytes c).foldr
        (fun b acc2 => '%' :: hexDigit (b / 16) :: hexDigit (b % 16) :: acc2)
        acc)
    []⟩

/-! ## Lexical path cleaning (Go `path/filepath.Clean` and `Join`) -/

/-- Core of `filepath.Clean`: process the slash-separated components,
dropping empty and `.` components and resolving `..` against the stack. -/
def cleanCore (rooted : Bool) : List String → List String → List String
  | [], acc => acc.reverse
  | comp :: rest, acc =>
    if comp = "" || comp = "." then cleanCore rooted rest acc
    else if comp = ".." then
      match acc with
      | top :: acc2 =>
        if top = ".." then cleanCore rooted rest (comp :: top :: acc2)
        else cleanCore rooted rest acc2
      | [] =>
        if rooted then cleanCore rooted rest []
        else cleanCore rooted rest [".."]
    else cleanCore rooted rest (comp :: acc)

/-- Split a character list at every slash. -/
def splitSlash : List Char → List (List Char)
  | [] => [[]]
  | c :: rest =>
    match splitSlash rest with
    | [] => [[]]
    | s :: ss => if c = '/' then [] :: s :: ss else (c :: s) :: ss

/-- Join components with slashes. -/
def joinSlash : List String → String
  | [] => ""
  | [s] => s
  | s :: rest => s ++ "/" ++ joinSlash rest

/-- Go `filepath.Clean` (forward-slash separator). -/
def pathClean (p : String) : String :=
  let rooted := p.data.head? = some '/'
  let comps := (splitSlash p.data).map (fun l => (⟨l⟩ : String))
  let body := joinSlash (cleanCore rooted comps [])
  if rooted then (if body = "" then "/" else "/" ++ body)
  else (if body = "" then "." else body)

/-- Go `filepath.Join` of two elements: drop empty elements, join the rest
with a separator, and `Clean` the result. -/
def joinPath (a b : String) : String :=
  if a = "" then (if b = "" then "" else pathClean b)
  else if b = "" then pathClean a
  else pathClean (a ++ "/" ++ b)

/-! ## Data model (src/feed.go) -/

/-- `Metadata` of src/feed.go: immutable configuration of the podcast. -/
structure Metadata where
  Title : String
  Link : String
  Desc : String
  Language : String
  CoverUrl : String
  externalUrl : String
  localRoot : String
deriving Repr, DecidableEq

/-- `Enclosure` of src/feed.go.  The Go field `Type` is called `Typ` here
because `Type` is reserved in Lean. -/
structure Enclosure where
  Url : String
  Length : Int
  Typ : String
deriving Repr, DecidableEq

/-- `Item` of src/feed.go: one catalog entry produced by a scan. -/
structure Item where
  Title : String
  Path : String
  ModTime : Nat
  Link : String
  Desc : String
  Enclosure : Enclosure
deriving Repr, DecidableEq

/-- `FileInfo` of src/feed.go: the serving-time projection of an item. -/
structure FileInfo where
  Path : String
  MimeType : String
  Size : Int
  ModTime : Nat
deriving Repr, DecidableEq

/-- The `mimeType` map of src/feed.go lines 89-93: the only recognized
extensions and their MIME types. -/
def mimeTypeOf (ext : String) : Option String :=
  if ext = ".mp3" then some "audio/mpeg"
  else if ext = ".mp4" then some "audio/x-m4a"
  else if ext = ".m4a" then some "audio/x-m4a"
  else none

/-- Go `filepath.Ext` restricted to a base name: the suffix starting at the
final dot, or empty when the name has no dot. -/
def extOf (s : String) : String :=
  if '.' ∈ s.data then ⟨'.' :: (s.data.reverse.takeWhile (· ≠ '.')).reverse⟩
  else ""

/-- The item title computed in src/feed.go line 140: the base name with the
extension cut off. -/
def titleOf (name : String) : String :=
  ⟨name.data.take (name.data.length - (extOf name).data.length)⟩

/-! ## File-system model and the directory walk (src/feed.go `Items`) -/

/-- A node of the served directory tree.  `openOk` models whether `os.Open`
succeeds on the file (src/feed.go line 135); directory listings are given in
the order `fs.WalkDir` visits them. -/
inductive FsNode where
  | file (name : String) (size : Int) (modTime : Nat) (openOk : Bool)
  | dir (name : String) (children : List FsNode)
deriving Repr

/-- Failure modes of the embedded Go code: an I/O error returned through the
error value, or a runtime panic. -/
inductive GoFail where
  | ioError (msg : String)
  | panicked (msg : String)
deriving Repr, DecidableEq

/-- The item built for one recognized file at relative path `pre ++ name`
(src/feed.go lines 149-160). -/
def itemOf (m : Metadata) (pre name : String) (size : Int) (mt : Nat)
    (mime : String) : Item :=
  { Title := titleOf name
    Path := pre ++ name
    ModTime := mt
    Link := m.externalUrl ++ pathEscape (pre ++ name)
    Desc := ""
    Enclosure :=
      { Url := m.externalUrl ++ pathEscape (pre ++ name)
        Length := size
        Typ := mime } }

/-! The walk body of src/feed.go lines 124-163: visit nodes in depth-first
order; skip directories themselves but descend into them extending the
relative path; for a file whose extension is in the `mimeType` map, open it
(failure aborts the walk with the error) and record an `Item`; silently
ignore other files. -/

mutual

/-- Walk a single node (the `WalkDir` callback body for one entry). -/
def walkNode (m : Metadata) (pre : String) : FsNode → Except GoFail (List Item)
  | .file name size mt canOpen =>
    match mimeTypeOf (extOf name) with
    | some mime =>
      if canOpen then .ok [itemOf m pre name size mt mime]
      else .error (.ioError (pre ++ name))
    | none => .ok []
  | .dir name children => walkList m (pre ++ name ++ "/") children

/-- Walk a directory listing in order, propagating the first error. -/
def walkList (m : Metadata) (pre : String) : List FsNode → Except GoFail (List Item)
  | [] => .ok []
  | n :: rest =>
    match walkNode m pre n with
    | .error e => .error e
    | .ok xs =>
      match walkList m pre rest with
      | .error e => .error e
      | .ok ys => .ok (xs ++ ys)

end

/-- `Metadata.Items` of src/feed.go lines 118-165.  The guard of lines
119-121 panics unless `externalUrl` ends in a slash (Go indexes the final
byte, so the empty string also panics there). -/
def Metadata.Items (m : Metadata) (root : List FsNode) : Except GoFail (List Item) :=
  if m.externalUrl.data.getLast? = some '/' then walkList m "" root
  else .error (.panicked "Meta.Items: expected externalUrl to end in slash")

/-- The `FileInfo` built for an item by src/feed.go lines 106-111. -/
def fileInfoOf (m : Metadata) (it : Item) : FileInfo :=
  { Path := joinPath m.localRoot it.Path
    MimeType := it.Enclosure.Typ
    Size := it.Enclosure.Length
    ModTime := it.ModTime }

/-- Go map insertion (newer binding shadows an older one for lookup). -/
def mapInsert (files : List (String × FileInfo)) (k : String) (v : FileInfo) :
    List (String × FileInfo) :=
  (k, v) :: files.filter (fun kv => kv.1 != k)

/-- The `files` map built by src/feed.go lines 104-112. -/
def mkFiles (m : Metadata) (items : List Item) : List (String × FileInfo) :=
  items.foldl (fun acc it => mapInsert acc it.Path (fileInfoOf m it)) []

/-- Result triple of `Metadata.GenerateFeed` (Go returns
`(feedXml, files, err)`; a failed build returns `nil, nil, err`). -/
structure GenResult where
  feed : Option String
  files : Option (List (String × FileInfo))
  err : Option GoFail
deriving Repr, DecidableEq

/-! ## Feed rendering (src/feed.go `Metadata.Feed` and `RSSTemplate`)

The fixed template is executed on `TemplateData`; its output is the literal
template text with each interpolation replaced by the HTML-escaped value.
The `{{- end}}` action trims the whitespace that follows `</item>` in the
template source, so each iteration of the range body contributes exactly
the text modelled by `itemRender`. -/

/-- The `<title>` element rendered for one item. -/
def itemTitleXML (it : Item) : String :=
  "<title>" ++ escapeHTML it.Title ++ "</title>"

/-- The `<link>` element rendered for one item. -/
def itemLinkXML (it : Item) : String :=
  "<link>" ++ escapeHTML it.Link ++ "</link>"

/-- The `<description>` element rendered for one item. -/
def itemDescXML (it : Item) : String :=
  "<description>" ++ escapeHTML it.Desc ++ "</description>"

/-- The `<pubDate>` element rendered for one item: the RFC-2822 rendering of
the file's modification time. -/
def itemPubDateXML (it : Item) : String :=
  "<pubDate>" ++ escapeHTML (timeRFC2822 it.ModTime) ++ "</pubDate>"

/-- The `<enclosure>` element rendered for one item: URL, byte length and
MIME type (the Go template writes the attribute name `Type`). -/
def itemEnclosureXML (it : Item) : String :=
  "<enclosure url=\"" ++ escapeHTML it.Enclosure.Url ++ "\" length=\"" ++
    escapeHTML (intStr it.Enclosure.Length) ++ "\" Type=\"" ++
    escapeHTML it.Enclosure.Typ ++ "\" />"

/-- One iteration of the template's range body (src/feed.go lines 28-36). -/
def itemRender (it : Item) : String :=
  "\n " ++ "<item>" ++ "\n  " ++ itemTitleXML it ++ "\n  " ++
    itemLinkXML it ++ "\n  " ++ itemDescXML it ++ "\n  " ++
    itemPubDateXML it ++ "\n  " ++ itemEnclosureXML it ++ "\n " ++ "</item>"

/-- The channel-level `<title>` element. -/
def chanTitleXML (m : Metadata) : String :=
  "<title>" ++ escapeHTML m.Title ++ "</title>"

/-- The channel-level `<link>` element. -/
def chanLinkXML (m : Metadata) : String :=
  "<link>" ++ escapeHTML m.Link ++ "</link>"

/-- The channel-level `<description>` element. -/
def chanDescXML (m : Metadata) : String :=
  "<description>" ++ escapeHTML m.Desc ++ "</description>"

/-- The channel-level `<language>` element. -/
def chanLangXML (m : Metadata) : String :=
  "<language>" ++ escapeHTML m.Language ++ "</language>"

/-- The channel-level cover-image element. -/
def chanImageXML (m : Metadata) : String :=
  "<itunes:image href=\"" ++ escapeHTML m.CoverUrl ++ "\" />"

/-- Template text before the range body, with the channel-level elements
(src/feed.go lines 17-27). -/
def chanPre (m : Metadata) : String :=
  "\n<rss version=\"2.0\"\n xmlns:itunes=\"http://www.itunes.com/dtds/podcast-1.0.dtd\"\n xmlns:content=\"http://purl.org/rss/1.0/modules/content/\"\n>\n<channel>\n " ++
    chanTitleXML m ++ "\n " ++ chanLinkXML m ++ "\n " ++ chanDescXML m ++
    "\n " ++ chanLangXML m ++ "\n " ++ chanImageXML m ++ "\n "

/-- Template text after the range body (src/feed.go lines 37-39). -/
def chanPost : String := "\n</channel>\n</rss>\n"

/-- The XML declaration written before the template output
(src/feed.go line 14 and line 175). -/
def XMLHeaderStr : String := "<?xml version=\"1.0\" encoding=\"UTF-8\"?>"

/-- Concatenation of the rendered items, in scan order. -/
def concatStrs : List String → String
  | [] => ""
  | s :: rest => s ++ concatStrs rest

/-- `Metadata.Feed` of src/feed.go lines 167-178: the XML header followed by
the executed template.  On the data reaching it from `Items` the template
execution cannot fail, so the rendering is total. -/
def feedRender (m : Metadata) (items : List Item) : String :=
  XMLHeaderStr ++ (chanPre m ++ (concatStrs (items.map itemRender) ++ chanPost))

/-- `Metadata.GenerateFeed` of src/feed.go lines 95-114: scan, render, and
build the file map; any error is returned with both results `nil`. -/
def Metadata.GenerateFeed (m : Metadata) (root : List FsNode) : GenResult :=
  match m.Items root with
  | .error e => { feed := none, files := none, err := some e }
  | .ok items =>
    { feed := some (feedRender m items)
      files := some (mkFiles m items)
      err := none }

/-! ## Observation helpers for the walk -/

/-! All files of the tree, as (relative path, base name) pairs in walk
order; used to state which files the scan turns into catalog entries. -/

mutual

/-- The files contributed by a single node. -/
def allFilesNode (pre : String) : FsNode → List (String × String)
  | .file name _ _ _ => [(pre ++ name, name)]
  | .dir name children => allFiles (pre ++ name ++ "/") children

/-- The files of a listing, in walk order. -/
def allFiles (pre : String) : List FsNode → List (String × String)
  | [] => []
  | n :: rest => allFilesNode pre n ++ allFiles pre rest

end

/-- The name of a node. -/
def nodeName : FsNode → String
  | .file name _ _ _ => name
  | .dir name _ => name

/-- The top-level names of a listing. -/
def topNames (l : List FsNode) : List String := l.map nodeName

/-! Well-formedness of a directory tree as it arises from a real file
system: names are non-empty and slash-free, and sibling names are
pairwise distinct. -/

mutual

/-- Well-formedness of one node. -/
def wfNode : FsNode → Bool
  | .file name _ _ _ => name != "" && !name.data.contains '/'
  | .dir name children =>
    (name != "" && !name.data.contains '/') && wfList children

/-- Well-formedness of a listing. -/
def wfList : List FsNode → Bool
  | [] => true
  | n :: rest =>
    wfNode n && (topNames rest).all (fun x => x != nodeName n) && wfList rest

end

/-! ## The catalog store and refresh loop (src/main.go) -/

/-- `Server` of src/main.go lines 38-43: the store guarded by `mu`.  The
lock itself is modelled separately (see the scheduler below); this record
is the protected data. -/
structure ServerSt where
  Metadata : Metadata
  FeedXML : String
  Files : List (String × FileInfo)
deriving Repr, DecidableEq

/-- Log records relevant to the claims: the refresh loop's failure record
and its per-update record (src/main.go lines 222 and 233-237). -/
inductive LogEvent where
  | refreshError (e : GoFail)
  | updated (numFiles : Nat)
deriving Repr, DecidableEq

/-- `NewServer` of src/main.go lines 197-209: build once, fail on error. -/
def NewServer (m : Metadata) (root : List FsNode) : Except GoFail ServerSt :=
  match m.GenerateFeed root with
  | { feed := some feedXml, files := some files, err := none } =>
    .ok { Metadata := m, FeedXML := feedXml, Files := files }
  | { err := some e, .. } => .error e
  | _ => .error (.ioError "unreachable shape")

/-- One tick of `refreshEntries` (src/main.go lines 220-238): rebuild; on a
build error log and keep the store; when the new feed document equals the
stored one byte for byte, do nothing; otherwise install both fields and log
one update record. -/
def refreshTick (s : ServerSt) (root : List FsNode) : ServerSt × List LogEvent :=
  match s.Metadata.GenerateFeed root with
  | { err := some e, .. } => (s, [.refreshError e])
  | { feed := some feedXml, files := some files, err := none } =>
    if feedXml = s.FeedXML then (s, [])
    else ({ s with FeedXML := feedXml, Files := files },
          [.updated files.length])
  | _ => (s, [])

/-- The refresh loop across successive ticks, each observing the directory
state of its moment (src/main.go lines 211-240); exactly one build per
tick, no retry in between. -/
def refreshLoop (s : ServerSt) : List (List FsNode) → ServerSt
  | [] => s
  | root :: rest => refreshLoop (refreshTick s root).1 rest

/-! ## The wrapping response writer (src/rwriter.go) -/

/-- Operations a handler performs on its `http.ResponseWriter`. -/
inductive WOp where
  | addHeader (name value : String)
  | writeHeader (status : Nat)
  | writeBody (buf : String)
  | serveContent (path : String)
deriving Repr, DecidableEq

/-- Replay a handler's writer operations through the `ResponseWriter` of
src/rwriter.go: the recorded status starts at 200, `WriteHeader` stores the
status, and `Write` forwards the buffer to the wire only when the recorded
status is 2xx — otherwise the buffer is logged and dropped (lines 24-35).
`serveContent` marks the hand-off to `http.ServeContent`, which is outside
the modelled core; no claim depends on its wire output.  Returns the final
status and the body bytes that reached the client. -/
def runRW : List WOp → Nat → String → Nat × String
  | [], status, body => (status, body)
  | .addHeader _ _ :: rest, status, body => runRW rest status body
  | .writeHeader st :: rest, _, body => runRW rest st body
  | .writeBody buf :: rest, status, body =>
    if status / 100 = 2 then runRW rest status (body ++ buf)
    else runRW rest status body
  | .serveContent _ :: rest, status, body => runRW rest status body

/-- The wire result of a handler's operation list. -/
def wireOf (ops : List WOp) : Nat × String := runRW ops 200 ""

/-! ## Request handlers (src/main.go lines 254-298)

A handler receives the store and returns the (unchanged) store, the writer
operations it performed, and how many snapshot reads (acquisitions of the
read lock) it took. -/

/-- `r.URL.Path[1:]` of src/main.go line 264: the request path with its
first byte (the leading slash) removed. -/
def dropSlash (p : String) : String := ⟨p.data.drop 1⟩

/-- An HTTP request as the handlers see it: method and URL path. -/
structure Request where
  method : String
  path : String
deriving Repr, DecidableEq

/-- Result of running a handler. -/
structure HandlerRun where
  store : ServerSt
  ops : List WOp
  snapshotReads : Nat
deriving Repr, DecidableEq

/-- `Server.ServeFeed` of src/main.go lines 286-298: reject non-GET/HEAD
with 405 before touching the store; otherwise take one snapshot read and
write the stored bytes verbatim with content-type and length headers. -/
def ServeFeed (s : ServerSt) (r : Request) : HandlerRun :=
  if ¬(r.method = "GET" ∨ r.method = "HEAD") then
    { store := s, ops := [.writeHeader 405], snapshotReads := 0 }
  else
    { store := s
      ops := [.addHeader "Content-Type" "application/rss+xml; charset=UTF-8",
              .addHeader "Content-Length" (natStr s.FeedXML.data.length),
              .writeHeader 200,
              .writeBody s.FeedXML]
      snapshotReads := 1 }

/-- `Server.ServeHTTP` of src/main.go lines 254-284 (the file handler):
reject non-GET/HEAD with 405; resolve the path with its leading slash
stripped against the file map (404 when absent); open the file (500 when
that fails); otherwise hand off to `http.ServeContent`.  `openResult`
models the outcome of `os.Open` per absolute path. -/
def ServeHTTP (s : ServerSt) (r : Request) (openResult : String → Bool) :
    HandlerRun :=
  if ¬(r.method = "GET" ∨ r.method = "HEAD") then
    { store := s, ops := [.writeHeader 405], snapshotReads := 0 }
  else
    match (s.Files.lookup (dropSlash r.path)) with
    | none => { store := s, ops := [.writeHeader 404], snapshotReads := 1 }
    | some pf =>
      if openResult pf.Path then
        { store := s
          ops := [.addHeader "Content-Type" pf.MimeType, .serveContent pf.Path]
          snapshotReads := 1 }
      else
        { store := s, ops := [.writeHeader 500], snapshotReads := 1 }

/-! ## Lock-discipline traces of the handlers (for the claim about I/O
under the lock)

Each handler's body is transcribed as the sequence of atomic actions it
performs, in program order, together with the reader-lock accounting:
`RLock` is taken with `defer RUnlock`, so the deferred release runs after
everything else (src/main.go lines 259-260 with 262-283, and 291-292 with
294-297). -/

/-- Atomic actions of a handler body. -/
inductive HandlerAct where
  | rlock
  | runlock
  | lookupSnapshot
  | addHeaderAct
  | writeHeaderAct
  | fsOpen
  | fsServeContent
  | netWrite
  | fsClose
deriving Repr, DecidableEq

/-- Actions that perform file-system I/O or write the response body. -/
def isIOAct : HandlerAct → Bool
  | .fsOpen => true
  | .fsServeContent => true
  | .netWrite => true
  | .fsClose => true
  | _ => false

/-- Pair every action with whether the reader lock is held while it runs. -/
def annotateHeld (held : Bool) : List HandlerAct → List (HandlerAct × Bool)
  | [] => []
  | .rlock :: rest => (.rlock, held) :: annotateHeld true rest
  | .runlock :: rest => (.runlock, held) :: annotateHeld false rest
  | a :: rest => (a, held) :: annotateHeld held rest

/-- Program-order actions of the file handler's successful path
(src/main.go lines 259-284): lock, map lookup, `os.Open`, header write,
`http.ServeContent` (reads the file and writes the response body), the
deferred `fp.Close`, then the deferred `RUnlock`. -/
def serveHTTPTrace : List HandlerAct :=
  [.rlock, .lookupSnapshot, .fsOpen, .addHeaderAct, .fsServeContent,
   .fsClose, .runlock]

/-- Program-order actions of the feed handler's successful path
(src/main.go lines 291-297): lock, two header writes, status write, body
write, then the deferred `RUnlock`. -/
def serveFeedTrace : List HandlerAct :=
  [.rlock, .addHeaderAct, .addHeaderAct, .writeHeaderAct, .netWrite,
   .runlock]

/-- The lock-annotated actions of both handlers. -/
def handlerHeldActs : List (HandlerAct × Bool) :=
  annotateHeld false serveHTTPTrace ++ annotateHeld false serveFeedTrace

/-! ## Fine-grained concurrency model of the store (snapshot atomicity)

The store's two protected fields are tagged with the id of the build that
produced their current value (0 = the startup build, 1 = the build the
refresh loop installs).  The refresh loop's install section is the exact
line sequence of src/main.go lines 230-238 (`Lock`, write `FeedXML`, write
`Files`, `Unlock`); a reader is a handler critical section (lines 259-260
or 291-292): `RLock`, read `FeedXML`, read `Files`, `RUnlock`.  The step
relation below permits every interleaving of these atomic lines that
respects reader/writer-lock semantics: the writer may hold the lock only
when no reader holds it, and vice versa.  (Go's `sync.RWMutex` is fairer
than this — a waiting writer also blocks new readers — so the modelled
behaviours are a superset of the real ones, and safety proved here covers
the real scheduler.) -/

/-- Global state: writer program counter, the build tags of the two stored
fields, and per-reader program counters and observations. -/
structure Sys (n : Nat) where
  wpc : Nat
  feedB : Nat
  filesB : Nat
  rpc : Fin n → Nat
  obsF : Fin n → Nat
  obsM : Fin n → Nat

/-- One atomic line of the writer (`refreshEntries`) or of a reader (a
request handler), with the lock guards as side conditions. -/
inductive StoreStep {n : Nat} : Sys n → Sys n → Prop where
  | wlock (s s' : Sys n) (hpc : s.wpc = 0)
      (hr : ∀ i, ¬(1 ≤ s.rpc i ∧ s.rpc i ≤ 3))
      (hs : s' = { s with wpc := 1 }) : StoreStep s s'
  | wsetFeed (s s' : Sys n) (hpc : s.wpc = 1)
      (hs : s' = { s with wpc := 2, feedB := 1 }) : StoreStep s s'
  | wsetFiles (s s' : Sys n) (hpc : s.wpc = 2)
      (hs : s' = { s with wpc := 3, filesB := 1 }) : StoreStep s s'
  | wunlock (s s' : Sys n) (hpc : s.wpc = 3)
      (hs : s' = { s with wpc := 4 }) : StoreStep s s'
  | rlock (s s' : Sys n) (i : Fin n) (hpc : s.rpc i = 0)
      (hw : ¬(1 ≤ s.wpc ∧ s.wpc ≤ 3))
      (hs : s' = { s with rpc := Function.update s.rpc i 1 }) : StoreStep s s'
  | rgetFeed (s s' : Sys n) (i : Fin n) (hpc : s.rpc i = 1)
      (hs : s' = { s with rpc := Function.update s.rpc i 2,
                          obsF := Function.update s.obsF i s.feedB }) :
      StoreStep s s'
  | rgetFiles (s s' : Sys n) (i : Fin n) (hpc : s.rpc i = 2)
      (hs : s' = { s with rpc := Function.update s.rpc i 3,
                          obsM := Function.update s.obsM i s.filesB }) :
      StoreStep s s'
  | runlock (s s' : Sys n) (i : Fin n) (hpc : s.rpc i = 3)
      (hs : s' = { s with rpc := Function.update s.rpc i 4 }) : StoreStep s s'

/-- Initial state: startup snapshot (build 0) installed, nobody running. -/
def initSys (n : Nat) : Sys n :=
  { wpc := 0, feedB := 0, filesB := 0,
    rpc := fun _ => 0, obsF := fun _ => 0, obsM := fun _ => 0 }

/-- States reachable by interleaving the writer's single replace with any
number of concurrent reads. -/
def ReachableStore {n : Nat} (s : Sys n) : Prop :=
  Relation.ReflTransGen StoreStep (initSys n) s

/-- Inductive invariant: lock exclusion, the precise tag values per writer
phase, and the coherence of completed observations. -/
def StoreInv {n : Nat} (s : Sys n) : Prop :=
  s.wpc ≤ 4 ∧
  (∀ i, (1 ≤ s.wpc ∧ s.wpc ≤ 3) → ¬(1 ≤ s.rpc i ∧ s.rpc i ≤ 3)) ∧
  (s.wpc ≤ 1 → s.feedB = 0 ∧ s.filesB = 0) ∧
  (s.wpc = 2 → s.feedB = 1 ∧ s.filesB = 0) ∧
  (3 ≤ s.wpc → s.feedB = 1 ∧ s.filesB = 1) ∧
  (∀ i, s.rpc i = 2 → s.obsF i = s.feedB) ∧
  (∀ i, 3 ≤ s.rpc i → s.obsF i = s.obsM i)

/-! ## Counting `<item>` elements in the rendered feed -/

/-- The opening tag of an item element. -/
def itemTag : List Char := ['<', 'i', 't', 'e', 'm', '>']

/-- Number of positions at which `<item>` occurs in the character list. -/
def countItemTag : List Char → Nat
  | [] => 0
  | c :: rest => (if itemTag.isPrefixOf (c :: rest) then 1 else 0) + countItemTag rest

/-- No `<` among the last five characters (a character is checked when at
most four characters follow it): appending to such a list cannot create a
new `<item>` occurrence across the boundary. -/
def tailSafe : List Char → Bool
  | [] => true
  | c :: cs => (if cs.length ≤ 4 then c != '<' else true) && tailSafe cs

/-- `a` occurs as a contiguous substring of `b`. -/
def strWithin (a b : String) : Prop :=
  ∃ l r, b.data = l ++ a.data ++ r

/-- `a` is a prefix of `b`. -/
def strHasIni (a b : String) : Prop :=
  ∃ r, b.data = a.data ++ r

/-! ## Startup URL normalisation (src/main.go `run`, lines 92-104) -/

/-- The URL generated when `-externalUrl` is left empty
(src/main.go line 94): always ends in a slash. -/
def genUrl (addr : String) (port : Nat) : String :=
  "http://" ++ addr ++ ":" ++ natStr port ++ "/"

/-- Lines 92-104 of `run`: substitute the generated URL for an empty flag,
then append a trailing slash when the final byte is not one. -/
def resolveExternalUrl (flagVal generated : String) : String :=
  let u := if flagVal = "" then generated else flagVal
  if u.data.getLast? ≠ some '/' then u ++ "/" else u

/-! ## Concrete fixtures used by the witnesses -/

/-- Example configuration, with the defaults of src/main.go's flags and a
slash-terminated external URL. -/
def exM : Metadata :=
  { Title := "My Podcast", Link := "http://h/feed", Desc := "Whatever",
    Language := "en", CoverUrl := "http://h/cover.png",
    externalUrl := "http://h/", localRoot := "media" }

/-- The example directory of the specification: three media files and two
files with unrecognized extensions. -/
def exFs : List FsNode :=
  [.file "song.mp3" 100 0 true,
   .file "clip.mp4" 5 0 true,
   .file "note.m4a" 7 0 true,
   .file "image.png" 3 0 true,
   .file "readme.txt" 2 0 true]

/-- A directory whose single media file cannot be opened, so that the
build fails. -/
def exBadFs : List FsNode := [.file "a.mp3" 1 0 false]

/-- The items the example scan produces. -/
def exItems : List Item :=
  match exM.Items exFs with
  | .ok l => l
  | .error _ => []

/-- The file map the example build produces. -/
def exFiles : List (String × FileInfo) := mkFiles exM exItems

/-- The store after the example startup build. -/
def exServer : ServerSt :=
  match NewServer exM exFs with
  | .ok s => s
  | .error _ => { Metadata := exM, FeedXML := "", Files := [] }

/-! # Theorems

## Counting lemmas for the rendered feed -/

/-- Whether a fixed list is a prefix of `l ++ b` is decided inside `l`
whenever `l` is at least as long as the candidate prefix. -/
theorem isPrefixOf_append_left : ∀ (t l b : List Char), t.length ≤ l.length →
    (t.isPrefixOf (l ++ b)) = t.isPrefixOf l
  | [], _, _, _ => by simp [List.isPrefixOf]
  | _ :: _, [], _, h => by simp at h
  | x :: ts, y :: ls, b, h => by
    simp only [List.cons_append, List.isPrefixOf, List.append_eq]
    rw [isPrefixOf_append_left ts ls b (by simpa using h)]

/-- Occurrences of `<item>` split across an append whose left part has no
`<` within reach of the boundary. -/
theorem countItemTag_append : ∀ (a b : List Char), tailSafe a = true →
    countItemTag (a ++ b) = countItemTag a + countItemTag b
  | [], b, _ => by simp [countItemTag]
  | c :: cs, b, h => by
    have hsplit : (if cs.length ≤ 4 then c != '<' else true) = true ∧
        tailSafe cs = true := by
      simpa [tailSafe, Bool.and_eq_true] using h
    simp only [List.cons_append, countItemTag, List.append_eq]
    rw [countItemTag_append cs b hsplit.2]
    by_cases hlen : 6 ≤ cs.length + 1
    · have hp := isPrefixOf_append_left itemTag (c :: cs) b
        (by simp [itemTag]; omega)
      simp only [List.cons_append, List.append_eq] at hp
      simp only [hp]
      omega
    · have hc : (c != '<') = true := by
        have : cs.length ≤ 4 := by omega
        simpa [this] using hsplit.1
      have hc2 : ('<' == c) = false :=
        beq_eq_false_iff_ne.mpr (Ne.symm (bne_iff_ne.mp hc))
      have h1 : itemTag.isPrefixOf (c :: (cs ++ b)) = false := by
        simp [itemTag, List.isPrefixOf, hc2]
      have h2 : itemTag.isPrefixOf (c :: cs) = false := by
        simp [itemTag, List.isPrefixOf, hc2]
      simp only [h1, h2]
      omega

/-- A list without `<` is tail-safe. -/
theorem tailSafe_of_not_mem {a : List Char} (h : '<' ∉ a) : tailSafe a = true := by
  induction a with
  | nil => rfl
  | cons c cs ih =>
    have hc : (c != '<') = true := by
      simp only [bne_iff_ne]
      intro hEq
      exact h (hEq ▸ List.mem_cons_self c cs)
    have hcs : tailSafe cs = true := ih (fun hm => h (List.mem_cons_of_mem c hm))
    simp [tailSafe, hc, hcs]

/-- A list without `<` contains no `<item>` occurrence. -/
theorem countItemTag_of_not_mem {a : List Char} (h : '<' ∉ a) :
    countItemTag a = 0 := by
  induction a with
  | nil => rfl
  | cons c cs ih =>
    have hc2 : ('<' == c) = false :=
      beq_eq_false_iff_ne.mpr (fun hEq => h (hEq ▸ List.mem_cons_self c cs))
    have : itemTag.isPrefixOf (c :: cs) = false := by
      simp [itemTag, List.isPrefixOf, hc2]
    simp [countItemTag, this, ih (fun hm => h (List.mem_cons_of_mem c hm))]

/-- The single-character escaping never emits `<`. -/
theorem escChar_not_lt (c : Char) : '<' ∉ escChar c := by
  unfold escChar
  split
  · decide
  · split
    · decide
    · split
      · decide
      · split
        · decide
        · split
          · decide
          · rename_i h1 h2 h3 h4 h5
            simp only [List.mem_singleton]
            intro hEq
            exact h1 hEq.symm

/-- HTML-escaped output never contains a raw `<`. -/
theorem escFold_not_lt : ∀ (l : List Char),
    '<' ∉ l.foldr (fun c acc => escChar c ++ acc) []
  | [] => by simp
  | c :: cs => by
    simp only [List.foldr_cons, List.mem_append]
    rintro (h | h)
    · exact escChar_not_lt c h
    · exact escFold_not_lt cs h

/-- `escapeHTML` output never contains a raw `<`. -/
theorem escapeHTML_not_lt (s : String) : '<' ∉ (escapeHTML s).data :=
  escFold_not_lt s.data

/-- Append step over a concrete literal with a known occurrence count. -/
theorem count_step (x : String) (k : Nat) (hk : countItemTag x.data = k)
    (hs : tailSafe x.data = true) (r : List Char) :
    countItemTag (x.data ++ r) = k + countItemTag r := by
  rw [countItemTag_append _ _ hs, hk]

/-- Append step over an escaped interpolation: no occurrences added. -/
theorem count_esc (s : String) (r : List Char) :
    countItemTag ((escapeHTML s).data ++ r) = countItemTag r := by
  rw [countItemTag_append _ _ (tailSafe_of_not_mem (escapeHTML_not_lt s)),
    countItemTag_of_not_mem (escapeHTML_not_lt s)]
  omega

/-- One rendered item contributes exactly one `<item>` occurrence. -/
theorem countItemTag_itemRender (it : Item) (r : List Char) :
    countItemTag ((itemRender it).data ++ r) = 1 + countItemTag r := by
  simp only [itemRender, itemTitleXML, itemLinkXML, itemDescXML,
    itemPubDateXML, itemEnclosureXML, String.data_append, List.append_assoc]
  rw [count_step "\n " 0 (by decide) (by decide),
    count_step "<item>" 1 (by decide) (by decide),
    count_step "\n  " 0 (by decide) (by decide),
    count_step "<title>" 0 (by decide) (by decide), count_esc,
    count_step "</title>" 0 (by decide) (by decide),
    count_step "\n  " 0 (by decide) (by decide),
    count_step "<link>" 0 (by decide) (by decide), count_esc,
    count_step "</link>" 0 (by decide) (by decide),
    count_step "\n  " 0 (by decide) (by decide),
    count_step "<description>" 0 (by decide) (by decide), count_esc,
    count_step "</description>" 0 (by decide) (by decide),
    count_step "\n  " 0 (by decide) (by decide),
    count_step "<pubDate>" 0 (by decide) (by decide), count_esc,
    count_step "</pubDate>" 0 (by decide) (by decide),
    count_step "\n  " 0 (by decide) (by decide),
    count_step "<enclosure url=\"" 0 (by decide) (by decide), count_esc,
    count_step "\" length=\"" 0 (by decide) (by decide), count_esc,
    count_step "\" Type=\"" 0 (by decide) (by decide), count_esc,
    count_step "\" />" 0 (by decide) (by decide),
    count_step "\n " 0 (by decide) (by decide),
    count_step "</item>" 0 (by decide) (by decide)]
  omega

/-- The rendered item list contributes one `<item>` occurrence per item. -/
theorem countItemTag_concatItems : ∀ (items : List Item) (r : List Char),
    countItemTag ((concatStrs (items.map itemRender)).data ++ r) =
      items.length + countItemTag r
  | [], r => by simp [concatStrs]
  | it :: rest, r => by
    simp only [List.map_cons, concatStrs, String.data_append,
      List.append_assoc]
    rw [countItemTag_itemRender, countItemTag_concatItems rest r]
    simp only [List.length_cons]
    omega

/-- The channel prefix contributes no `<item>` occurrence. -/
theorem countItemTag_chanPre (m : Metadata) (r : List Char) :
    countItemTag ((chanPre m).data ++ r) = countItemTag r := by
  simp only [chanPre, chanTitleXML, chanLinkXML, chanDescXML, chanLangXML,
    chanImageXML, String.data_append, List.append_assoc]
  rw [count_step "\n<rss version=\"2.0\"\n xmlns:itunes=\"http://www.itunes.com/dtds/podcast-1.0.dtd\"\n xmlns:content=\"http://purl.org/rss/1.0/modules/content/\"\n>\n<channel>\n " 0 (by decide) (by decide),
    count_step "<title>" 0 (by decide) (by decide), count_esc,
    count_step "</title>" 0 (by decide) (by decide),
    count_step "\n " 0 (by decide) (by decide),
    count_step "<link>" 0 (by decide) (by decide), count_esc,
    count_step "</link>" 0 (by decide) (by decide),
    count_step "\n " 0 (by decide) (by decide),
    count_step "<description>" 0 (by decide) (by decide), count_esc,
    count_step "</description>" 0 (by decide) (by decide),
    count_step "\n " 0 (by decide) (by decide),
    count_step "<language>" 0 (by decide) (by decide), count_esc,
    count_step "</language>" 0 (by decide) (by decide),
    count_step "\n " 0 (by decide) (by decide),
    count_step "<itunes:image href=\"" 0 (by decide) (by decide), count_esc,
    count_step "\" />" 0 (by decide) (by decide),
    count_step "\n " 0 (by decide) (by decide)]
  omega

/-- The rendered feed contains exactly one `<item>` occurrence per scanned
item. -/
theorem countItemTag_feedRender (m : Metadata) (items : List Item) :
    countItemTag (feedRender m items).data = items.length := by
  have hshape : (feedRender m items).data =
      XMLHeaderStr.data ++ ((chanPre m).data ++
        ((concatStrs (items.map itemRender)).data ++ chanPost.data)) := by
    simp [feedRender, String.data_append]
  rw [hshape, count_step XMLHeaderStr 0 (by decide) (by decide),
    countItemTag_chanPre, countItemTag_concatItems]
  rw [show countItemTag chanPost.data = 0 from by decide]
  omega

/-! ## Substring-presence lemmas for the rendered feed -/

/-- A string occurs within itself. -/
theorem strWithin_refl (a : String) : strWithin a a :=
  ⟨[], [], by simp⟩

/-- Occurrence is preserved by extending on the left. -/
theorem strWithin_appL (a b c : String) (h : strWithin a c) :
    strWithin a (b ++ c) := by
  obtain ⟨l, r, hl⟩ := h
  exact ⟨b.data ++ l, r, by simp [String.data_append, hl, List.append_assoc]⟩

/-- Occurrence is preserved by extending on the right. -/
theorem strWithin_appR (a b c : String) (h : strWithin a b) :
    strWithin a (b ++ c) := by
  obtain ⟨l, r, hl⟩ := h
  exact ⟨l, r ++ c.data, by simp [String.data_append, hl, List.append_assoc]⟩

/-- An occurrence inside the channel prefix is an occurrence in the feed. -/
theorem strWithin_feed_of_chanPre (a : String) (m : Metadata)
    (items : List Item) (h : strWithin a (chanPre m)) :
    strWithin a (feedRender m items) := by
  show strWithin a (XMLHeaderStr ++ (chanPre m ++
    (concatStrs (items.map itemRender) ++ chanPost)))
  exact strWithin_appL _ _ _ (strWithin_appR _ _ _ h)

/-- The rendered block of each scanned item occurs in the item section. -/
theorem itemRender_within_concat (it : Item) : ∀ (items : List Item),
    it ∈ items → strWithin (itemRender it) (concatStrs (items.map itemRender))
  | [], h => absurd h (List.not_mem_nil it)
  | x :: rest, h => by
    show strWithin (itemRender it)
      (itemRender x ++ concatStrs (rest.map itemRender))
    rcases List.mem_cons.mp h with h1 | h2
    · exact h1 ▸ strWithin_appR _ _ _ (strWithin_refl _)
    · exact strWithin_appL _ _ _ (itemRender_within_concat it rest h2)

/-- The rendered block of each scanned item occurs in the feed. -/
theorem itemRender_within_feed (it : Item) (m : Metadata)
    (items : List Item) (h : it ∈ items) :
    strWithin (itemRender it) (feedRender m items) := by
  show strWithin (itemRender it) (XMLHeaderStr ++ (chanPre m ++
    (concatStrs (items.map itemRender) ++ chanPost)))
  exact strWithin_appL _ _ _ (strWithin_appL _ _ _
    (strWithin_appR _ _ _ (itemRender_within_concat it items h)))

/-- The five elements of one rendered item occur inside its block. -/
theorem itemFields_within (it : Item) :
    strWithin (itemTitleXML it) (itemRender it) ∧
    strWithin (itemLinkXML it) (itemRender it) ∧
    strWithin (itemDescXML it) (itemRender it) ∧
    strWithin (itemPubDateXML it) (itemRender it) ∧
    strWithin (itemEnclosureXML it) (itemRender it) := by
  refine ⟨⟨("\n " ++ "<item>" ++ "\n  ").data, ?_, ?_⟩,
    ⟨("\n " ++ "<item>" ++ "\n  " ++ itemTitleXML it ++ "\n  ").data, ?_, ?_⟩,
    ⟨("\n " ++ "<item>" ++ "\n  " ++ itemTitleXML it ++ "\n  " ++
        itemLinkXML it ++ "\n  ").data, ?_, ?_⟩,
    ⟨("\n " ++ "<item>" ++ "\n  " ++ itemTitleXML it ++ "\n  " ++
        itemLinkXML it ++ "\n  " ++ itemDescXML it ++ "\n  ").data, ?_, ?_⟩,
    ⟨("\n " ++ "<item>" ++ "\n  " ++ itemTitleXML it ++ "\n  " ++
        itemLinkXML it ++ "\n  " ++ itemDescXML it ++ "\n  " ++
        itemPubDateXML it ++ "\n  ").data, ?_, ?_⟩⟩
  · exact ("\n  " ++ itemLinkXML it ++ "\n  " ++ itemDescXML it ++ "\n  " ++
      itemPubDateXML it ++ "\n  " ++ itemEnclosureXML it ++ "\n " ++
      "</item>").data
  · simp [itemRender, String.data_append, List.append_assoc]
  · exact ("\n  " ++ itemDescXML it ++ "\n  " ++ itemPubDateXML it ++ "\n  " ++
      itemEnclosureXML it ++ "\n " ++ "</item>").data
  · simp [itemRender, String.data_append, List.append_assoc]
  · exact ("\n  " ++ itemPubDateXML it ++ "\n  " ++ itemEnclosureXML it ++
      "\n " ++ "</item>").data
  · simp [itemRender, String.data_append, List.append_assoc]
  · exact ("\n  " ++ itemEnclosureXML it ++ "\n " ++ "</item>").data
  · simp [itemRender, String.data_append, List.append_assoc]
  · exact ("\n " ++ "</item>").data
  · simp [itemRender, String.data_append, List.append_assoc]

/-- The five channel-level elements occur inside the channel prefix. -/
theorem chanFields_within (m : Metadata) :
    strWithin (chanTitleXML m) (chanPre m) ∧
    strWithin (chanLinkXML m) (chanPre m) ∧
    strWithin (chanDescXML m) (chanPre m) ∧
    strWithin (chanLangXML m) (chanPre m) ∧
    strWithin (chanImageXML m) (chanPre m) := by
  refine ⟨⟨("\n<rss version=\"2.0\"\n xmlns:itunes=\"http://www.itunes.com/dtds/podcast-1.0.dtd\"\n xmlns:content=\"http://purl.org/rss/1.0/modules/content/\"\n>\n<channel>\n ").data, ?_, ?_⟩, ?_, ?_, ?_, ?_⟩
  · exact ("\n " ++ chanLinkXML m ++ "\n " ++ chanDescXML m ++ "\n " ++
      chanLangXML m ++ "\n " ++ chanImageXML m ++ "\n ").data
  · simp [chanPre, String.data_append, List.append_assoc]
  · refine ⟨("\n<rss version=\"2.0\"\n xmlns:itunes=\"http://www.itunes.com/dtds/podcast-1.0.dtd\"\n xmlns:content=\"http://purl.org/rss/1.0/modules/content/\"\n>\n<channel>\n " ++ chanTitleXML m ++ "\n ").data,
      ("\n " ++ chanDescXML m ++ "\n " ++ chanLangXML m ++ "\n " ++
        chanImageXML m ++ "\n ").data, ?_⟩
    simp [chanPre, String.data_append, List.append_assoc]
  · refine ⟨("\n<rss version=\"2.0\"\n xmlns:itunes=\"http://www.itunes.com/dtds/podcast-1.0.dtd\"\n xmlns:content=\"http://purl.org/rss/1.0/modules/content/\"\n>\n<channel>\n " ++ chanTitleXML m ++ "\n " ++ chanLinkXML m ++ "\n ").data,
      ("\n " ++ chanLangXML m ++ "\n " ++ chanImageXML m ++ "\n ").data, ?_⟩
    simp [chanPre, String.data_append, List.append_assoc]
  · refine ⟨("\n<rss version=\"2.0\"\n xmlns:itunes=\"http://www.itunes.com/dtds/podcast-1.0.dtd\"\n xmlns:content=\"http://purl.org/rss/1.0/modules/content/\"\n>\n<channel>\n " ++ chanTitleXML m ++ "\n " ++ chanLinkXML m ++ "\n " ++ chanDescXML m ++ "\n ").data,
      ("\n " ++ chanImageXML m ++ "\n ").data, ?_⟩
    simp [chanPre, String.data_append, List.append_assoc]
  · refine ⟨("\n<rss version=\"2.0\"\n xmlns:itunes=\"http://www.itunes.com/dtds/podcast-1.0.dtd\"\n xmlns:content=\"http://purl.org/rss/1.0/modules/content/\"\n>\n<channel>\n " ++ chanTitleXML m ++ "\n " ++ chanLinkXML m ++ "\n " ++ chanDescXML m ++ "\n " ++ chanLangXML m ++ "\n ").data,
      ("\n ").data, ?_⟩
    simp [chanPre, String.data_append, List.append_assoc]

/-- C5 (feed item completeness): for every list of scanned items, the
rendered feed document starts with the XML declaration, carries the
channel-level title, link, description, language and cover image, and
contains exactly one `<item>` element per catalog entry, whose block
carries that entry's title, link, description, publication date (the
rendered modification time) and an `<enclosure>` with the entry's URL,
byte length and MIME type. -/
theorem claim_C5_feed_item_completeness (m : Metadata) (items : List Item) :
    strHasIni XMLHeaderStr (feedRender m items) ∧
    countItemTag (feedRender m items).data = items.length ∧
    strWithin (chanTitleXML m) (feedRender m items) ∧
    strWithin (chanLinkXML m) (feedRender m items) ∧
    strWithin (chanDescXML m) (feedRender m items) ∧
    strWithin (chanLangXML m) (feedRender m items) ∧
    strWithin (chanImageXML m) (feedRender m items) ∧
    ∀ it ∈ items,
      strWithin (itemRender it) (feedRender m items) ∧
      strWithin (itemTitleXML it) (itemRender it) ∧
      strWithin (itemLinkXML it) (itemRender it) ∧
      strWithin (itemDescXML it) (itemRender it) ∧
      strWithin (itemPubDateXML it) (itemRender it) ∧
      strWithin (itemEnclosureXML it) (itemRender it) := by
  obtain ⟨c1, c2, c3, c4, c5⟩ := chanFields_within m
  refine ⟨⟨(chanPre m ++ (concatStrs (items.map itemRender) ++ chanPost)).data,
      by simp [feedRender, String.data_append]⟩,
    countItemTag_feedRender m items,
    strWithin_feed_of_chanPre _ m items c1,
    strWithin_feed_of_chanPre _ m items c2,
    strWithin_feed_of_chanPre _ m items c3,
    strWithin_feed_of_chanPre _ m items c4,
    strWithin_feed_of_chanPre _ m items c5, ?_⟩
  intro it hit
  obtain ⟨f1, f2, f3, f4, f5⟩ := itemFields_within it
  exact ⟨itemRender_within_feed it m items hit, f1, f2, f3, f4, f5⟩

/-- Witness for C5 at the example configuration and scan result. -/
theorem claim_C5_witness :
    countItemTag (feedRender exM exItems).data = exItems.length :=
  (claim_C5_feed_item_completeness exM exItems).2.1

/-! ## Refresh-loop claims -/

/-- C2 (atomicity on build failure): on a tick whose build fails, the
refresh step leaves the store unchanged, emits exactly the failure log
record, and the loop simply proceeds to the next tick (one build per tick,
no retry, no crash). -/
theorem claim_C2_refresh_failure (s : ServerSt) (root : List FsNode)
    (e : GoFail) (h : (s.Metadata.GenerateFeed root).err = some e) :
    refreshTick s root = (s, [.refreshError e]) ∧
    ∀ rest, refreshLoop s (root :: rest) = refreshLoop s rest := by
  rcases hg : s.Metadata.GenerateFeed root with ⟨f, fl, err⟩
  rw [hg] at h
  simp only at h
  subst h
  constructor
  · simp [refreshTick, hg]
  · intro rest
    simp [refreshLoop, refreshTick, hg]

/-- Witness for C2: a directory whose only media file cannot be opened. -/
theorem claim_C2_witness :
    (exServer.Metadata.GenerateFeed exBadFs).err = some (.ioError "a.mp3") ∧
    refreshTick exServer exBadFs =
      (exServer, [.refreshError (.ioError "a.mp3")]) := by
  have h : (exServer.Metadata.GenerateFeed exBadFs).err =
      some (.ioError "a.mp3") := by rfl
  exact ⟨h, (claim_C2_refresh_failure exServer exBadFs _ h).1⟩

/-- C3 (no-op refresh): on a tick whose build succeeds with a feed document
byte-for-byte equal to the stored one, the refresh step installs nothing
and emits no log record at all (in particular no update record). -/
theorem claim_C3_noop_refresh (s : ServerSt) (root : List FsNode)
    (feedXml : String) (files : List (String × FileInfo))
    (h : s.Metadata.GenerateFeed root =
      { feed := some feedXml, files := some files, err := none })
    (heq : feedXml = s.FeedXML) :
    refreshTick s root = (s, []) := by
  simp [refreshTick, h, heq]

/-- Witness for C3: rescanning the unchanged example directory. -/
theorem claim_C3_witness : refreshTick exServer exFs = (exServer, []) := by
  have h : exServer.Metadata.GenerateFeed exFs =
      { feed := some exServer.FeedXML, files := some exServer.Files,
        err := none } := by rfl
  exact claim_C3_noop_refresh exServer exFs _ _ h rfl

/-! ## Handler claims -/

/-- C7 (method rejection): a request to the feed handler whose method is
neither GET nor HEAD gets status 405 on the wire, and the handler neither
modifies the store nor takes a snapshot read. -/
theorem claim_C7_method_rejection (s : ServerSt) (r : Request)
    (h1 : r.method ≠ "GET") (h2 : r.method ≠ "HEAD") :
    ServeFeed s r =
      { store := s, ops := [.writeHeader 405], snapshotReads := 0 } ∧
    (wireOf (ServeFeed s r).ops).1 = 405 ∧
    (wireOf (ServeFeed s r).ops).2 = "" := by
  have hm : ¬(r.method = "GET" ∨ r.method = "HEAD") := by tauto
  simp [ServeFeed, hm, wireOf, runRW]

/-- Witness for C7: a POST to the feed handler of the example store. -/
theorem claim_C7_witness :
    ServeFeed exServer { method := "POST", path := "/feed" } =
      { store := exServer, ops := [.writeHeader 405], snapshotReads := 0 } :=
  (claim_C7_method_rejection exServer _ (by decide) (by decide)).1

/-- The wrapping response writer drops every body write performed while the
recorded status is not 2xx (src/rwriter.go lines 24-35). -/
theorem runRW_suppress : ∀ (bufs : List String) (st : Nat) (body : String),
    st / 100 ≠ 2 → runRW (bufs.map WOp.writeBody) st body = (st, body)
  | [], _, _, _ => rfl
  | b :: bufs, st, body, h => by
    simp [runRW, h, runRW_suppress bufs st body h]

/-- C8 (unknown path): a GET/HEAD request whose stripped path is not a key
of the current file map gets a bare 404: no body reaches the wire, and even
body writes attempted after the 404 status (as `http.ServeContent` would do
with an error text) would be suppressed by the wrapping response writer. -/
theorem claim_C8_unknown_path (s : ServerSt) (r : Request)
    (openRes : String → Bool)
    (hm : r.method = "GET" ∨ r.method = "HEAD")
    (hl : s.Files.lookup (dropSlash r.path) = none) :
    (ServeHTTP s r openRes).ops = [.writeHeader 404] ∧
    wireOf (ServeHTTP s r openRes).ops = (404, "") ∧
    ∀ extra : List String,
      runRW ((ServeHTTP s r openRes).ops ++ extra.map WOp.writeBody) 200 "" =
        (404, "") := by
  have hops : (ServeHTTP s r openRes).ops = [.writeHeader 404] := by
    simp [ServeHTTP, hm, hl]
  refine ⟨hops, by simp [hops, wireOf, runRW], ?_⟩
  intro extra
  rw [hops]
  show runRW (extra.map WOp.writeBody) 404 "" = (404, "")
  exact runRW_suppress extra 404 "" (by omega)

/-- Witness for C8: requesting a path absent from the example file map. -/
theorem claim_C8_witness :
    wireOf (ServeHTTP exServer
      { method := "GET", path := "/does-not-exist.mp3" }
      (fun _ => true)).ops = (404, "") :=
  (claim_C8_unknown_path exServer _ _ (Or.inl rfl) (by rfl)).2.1

/-! ## Lock discipline of the handlers -/

/-- C4 counterexample: the claim "no handler ever holds the lock during
file-system I/O or while writing a response body" is false for this code:
both handlers run with `RLock` held (released by `defer`) across `os.Open`,
`http.ServeContent` and the body write. -/
theorem claim_C4_counterexample :
    ¬(∀ p ∈ handlerHeldActs, isIOAct p.1 = true → p.2 = false) := by
  decide

/-- C4 amended: every file-system access and body write of both handlers
happens while the reader (shared) lock is held — the handlers acquire it
first and release it last, so the lock is held for the whole request, not
merely for copying the snapshot reference.  (Being a read lock, it blocks
only the refresh loop's install, not other readers.) -/
theorem claim_C4_lock_discipline :
    (∀ p ∈ handlerHeldActs, isIOAct p.1 = true → p.2 = true) ∧
    serveHTTPTrace.head? = some .rlock ∧
    serveHTTPTrace.getLast? = some .runlock ∧
    serveFeedTrace.head? = some .rlock ∧
    serveFeedTrace.getLast? = some .runlock := by
  decide

/-! ## Panic safety of the scan -/

mutual

/-- The walk body itself never panics: its only failures are I/O errors. -/
theorem walkNode_no_panic (m : Metadata) (msg : String) :
    ∀ (n : FsNode) (pre : String),
      walkNode m pre n ≠ .error (.panicked msg)
  | .file name size mt canOpen, pre => by
    simp only [walkNode]
    cases h : mimeTypeOf (extOf name) with
    | none => simp
    | some mime =>
      by_cases hc : canOpen
      · simp [hc]
      · simp [hc]
  | .dir name children, pre =>
    walkList_no_panic m msg children (pre ++ name ++ "/")

/-- The walk over a listing never panics. -/
theorem walkList_no_panic (m : Metadata) (msg : String) :
    ∀ (l : List FsNode) (pre : String),
      walkList m pre l ≠ .error (.panicked msg)
  | [], pre => by simp [walkList]
  | n :: rest, pre => by
    simp only [walkList]
    cases hn : walkNode m pre n with
    | error e =>
      have h := walkNode_no_panic m msg n pre
      rw [hn] at h
      simpa using h
    | ok xs =>
      cases hr : walkList m pre rest with
      | error e =>
        have h := walkList_no_panic m msg rest pre
        rw [hr] at h
        simpa using h
      | ok ys => simp

end

/-- C10 (externalUrl panic safety): the scan panics only when `externalUrl`
does not end in a slash — whenever it does end in `'/'`, `Items` cannot
return the panic outcome — and startup (`run`) establishes that
precondition before the first build: after lines 92-104 the resolved
external URL always ends in a slash, whether the flag was set or the
generated default was used. -/
theorem claim_C10_panic_safety :
    (∀ (m : Metadata) (root : List FsNode) (msg : String),
      m.externalUrl.data.getLast? = some '/' →
      m.Items root ≠ .error (.panicked msg)) ∧
    (∀ (flagVal addr : String) (port : Nat),
      (resolveExternalUrl flagVal (genUrl addr port)).data.getLast? =
        some '/') := by
  constructor
  · intro m root msg h
    unfold Metadata.Items
    rw [if_pos h]
    exact walkList_no_panic m msg root ""
  · intro flagVal addr port
    unfold resolveExternalUrl
    by_cases h : (if flagVal = "" then genUrl addr port else flagVal).data.getLast? = some '/'
    · simp [h]
    · simp only [h, ne_eq, not_false_eq_true, if_true]
      rw [String.data_append]
      rw [show ("/" : String).data = ['/'] from rfl]
      exact List.getLast?_concat _

/-- Witness for C10: the example configuration satisfies the precondition
and its scan does not panic. -/
theorem claim_C10_witness :
    exM.externalUrl.data.getLast? = some '/' ∧
    exM.Items exFs ≠ .error (.panicked "p") :=
  ⟨by decide, claim_C10_panic_safety.1 exM exFs "p" (by decide)⟩

/-! ## Which files become catalog entries -/

mutual

/-- A successful walk of one node yields exactly the node's files with a
recognized extension, in order, as item paths. -/
theorem walkNode_paths (m : Metadata) :
    ∀ (n : FsNode) (pre : String) (items : List Item),
      walkNode m pre n = .ok items →
      items.map (·.Path) =
        ((allFilesNode pre n).filter
          (fun pn => (mimeTypeOf (extOf pn.2)).isSome)).map (·.1)
  | .file name size mt canOpen, pre, items => by
    intro h
    simp only [walkNode] at h
    cases hm : mimeTypeOf (extOf name) with
    | none =>
      rw [hm] at h
      simp only at h
      cases h
      simp [allFilesNode, hm]
    | some mime =>
      rw [hm] at h
      simp only at h
      by_cases hc : canOpen
      · rw [if_pos hc] at h
        cases h
        simp [allFilesNode, hm, itemOf]
      · rw [if_neg hc] at h
        cases h
  | .dir name children, pre, items => by
    intro h
    have := walkList_paths m children (pre ++ name ++ "/") items h
    simpa [allFilesNode] using this

/-- A successful walk of a listing yields exactly its recognized files. -/
theorem walkList_paths (m : Metadata) :
    ∀ (l : List FsNode) (pre : String) (items : List Item),
      walkList m pre l = .ok items →
      items.map (·.Path) =
        ((allFiles pre l).filter
          (fun pn => (mimeTypeOf (extOf pn.2)).isSome)).map (·.1)
  | [], pre, items => by
    intro h
    simp only [walkList] at h
    cases h
    simp [allFiles]
  | n :: rest, pre, items => by
    intro h
    simp only [walkList] at h
    cases hn : walkNode m pre n with
    | error e => rw [hn] at h; cases h
    | ok xs =>
      rw [hn] at h
      cases hr : walkList m pre rest with
      | error e => rw [hr] at h; cases h
      | ok ys =>
        rw [hr] at h
        simp only at h
        cases h
        simp only [allFiles, List.filter_append, List.map_append]
        rw [walkNode_paths m n pre xs hn, walkList_paths m rest pre ys hr]

end

/-- C6 (extension filtering): a successful scan turns a file into a catalog
entry if and only if its extension is recognized — the item paths are
exactly the walked file paths whose base name has extension `.mp3`, `.mp4`
or `.m4a` — and the recognized-extension table is exactly
`.mp3 -> audio/mpeg`, `.mp4 -> audio/x-m4a`, `.m4a -> audio/x-m4a`. -/
theorem claim_C6_extension_filtering (m : Metadata) (root : List FsNode)
    (items : List Item) (h : m.Items root = .ok items) :
    items.map (·.Path) =
      ((allFiles "" root).filter
        (fun pn => (mimeTypeOf (extOf pn.2)).isSome)).map (·.1) ∧
    mimeTypeOf ".mp3" = some "audio/mpeg" ∧
    mimeTypeOf ".mp4" = some "audio/x-m4a" ∧
    mimeTypeOf ".m4a" = some "audio/x-m4a" ∧
    (∀ e, (mimeTypeOf e).isSome → e = ".mp3" ∨ e = ".mp4" ∨ e = ".m4a") := by
  have h2 : walkList m "" root = .ok items := by
    unfold Metadata.Items at h
    by_cases hg : m.externalUrl.data.getLast? = some '/'
    · rwa [if_pos hg] at h
    · rw [if_neg hg] at h
      cases h
  refine ⟨walkList_paths m root "" items h2, rfl, rfl, rfl, ?_⟩
  intro e he
  unfold mimeTypeOf at he
  split at he
  · left; assumption
  · split at he
    · right; left; assumption
    · split at he
      · right; right; assumption
      · simp at he

/-- Witness for C6: the five-file example directory yields exactly the
three media entries. -/
theorem claim_C6_witness :
    exM.Items exFs = .ok exItems ∧
    exItems.map (·.Path) =
      ((allFiles "" exFs).filter
        (fun pn => (mimeTypeOf (extOf pn.2)).isSome)).map (·.1) ∧
    exItems.map (·.Path) = ["song.mp3", "clip.mp4", "note.m4a"] ∧
    exItems.length = 3 := by
  have h : exM.Items exFs = .ok exItems := rfl
  exact ⟨h, (claim_C6_extension_filtering exM exFs exItems h).1, rfl, rfl⟩

/-! ## The file map built by GenerateFeed -/

/-- Dropping the bindings of one key does not change lookups of others. -/
theorem lookup_filter_ne (acc : List (String × FileInfo)) (k q : String)
    (hq : q ≠ k) :
    (acc.filter (fun kv => kv.1 != k)).lookup q = acc.lookup q := by
  induction acc with
  | nil => rfl
  | cons kv rest ih =>
    obtain ⟨a, v⟩ := kv
    by_cases hak : a = k
    · subst hak
      simp only [List.filter_cons, bne_self_eq_false, Bool.false_eq_true,
        if_false, List.lookup, beq_eq_false_iff_ne.mpr hq]
      exact ih
    · simp only [List.filter_cons, bne_iff_ne, ne_eq, hak, not_false_eq_true,
        if_true, List.lookup]
      cases hqa : (q == a) with
      | true => rfl
      | false => exact ih

/-- Lookup after a Go map insert: the inserted key wins, others unchanged. -/
theorem lookup_mapInsert (acc : List (String × FileInfo)) (k q : String)
    (v : FileInfo) :
    (mapInsert acc k v).lookup q = if q = k then some v else acc.lookup q := by
  unfold mapInsert
  by_cases hq : q = k
  · subst hq
    simp [List.lookup]
  · simp only [List.lookup, beq_eq_false_iff_ne.mpr hq, hq, if_false]
    exact lookup_filter_ne acc k q hq

/-- Lookup in the fold that builds the file map, with an arbitrary
accumulator whose keys are disjoint from the remaining item paths. -/
theorem lookup_mkFiles_aux (m : Metadata) :
    ∀ (items : List Item) (acc : List (String × FileInfo)),
      (∀ it ∈ items, acc.lookup it.Path = none) →
      (items.map (·.Path)).Nodup →
      ∀ (p : String) (fi : FileInfo),
        ((items.foldl
            (fun a it => mapInsert a it.Path (fileInfoOf m it)) acc).lookup p
          = some fi ↔
          (∃ it ∈ items, it.Path = p ∧ fi = fileInfoOf m it) ∨
            acc.lookup p = some fi)
  | [], acc, hacc, hnd, p, fi => by simp
  | it :: rest, acc, hacc, hnd, p, fi => by
    simp only [List.foldl_cons]
    have hnd2 : (rest.map (·.Path)).Nodup :=
      (List.nodup_cons.mp (by simpa using hnd)).2
    have hit : it.Path ∉ rest.map (·.Path) :=
      (List.nodup_cons.mp (by simpa using hnd)).1
    have hacc2 : ∀ it2 ∈ rest,
        (mapInsert acc it.Path (fileInfoOf m it)).lookup it2.Path = none := by
      intro it2 h2
      rw [lookup_mapInsert]
      have hne : it2.Path ≠ it.Path :=
        fun he => hit (he ▸ List.mem_map_of_mem _ h2)
      rw [if_neg hne]
      exact hacc it2 (List.mem_cons_of_mem _ h2)
    rw [lookup_mkFiles_aux m rest _ hacc2 hnd2 p fi, lookup_mapInsert]
    constructor
    · rintro (⟨it2, hmem, hp, hfi⟩ | hrest)
      · exact Or.inl ⟨it2, List.mem_cons_of_mem _ hmem, hp, hfi⟩
      · by_cases hpk : p = it.Path
        · rw [if_pos hpk] at hrest
          exact Or.inl ⟨it, List.mem_cons_self it rest, hpk.symm,
            (Option.some_injective _ hrest).symm⟩
        · rw [if_neg hpk] at hrest
          exact Or.inr hrest
    · rintro (⟨it2, hmem, hp, hfi⟩ | hacc3)
      · rcases List.mem_cons.mp hmem with h1 | hmem2
        · subst h1
          refine Or.inr ?_
          rw [if_pos hp.symm, hfi]
        · exact Or.inl ⟨it2, hmem2, hp, hfi⟩
      · refine Or.inr ?_
        have hpk : p ≠ it.Path := by
          intro he
          have := hacc it (List.mem_cons_self it rest)
          rw [← he, hacc3] at this
          cases this
        rw [if_neg hpk]
        exact hacc3

/-- Lookup in the built file map: exactly the items' paths are bound, each
to the `FileInfo` projection of its item (distinct paths assumed, as they
are on a real file system). -/
theorem lookup_mkFiles (m : Metadata) (items : List Item)
    (hnd : (items.map (·.Path)).Nodup) (p : String) (fi : FileInfo) :
    (mkFiles m items).lookup p = some fi ↔
      ∃ it ∈ items, it.Path = p ∧ fi = fileInfoOf m it := by
  have h := lookup_mkFiles_aux m items [] (fun it _ => rfl) hnd p fi
  simpa [mkFiles] using h

/-! ## Distinctness of the walked paths on a well-formed tree -/

/-- A slash-free prefix is recovered by `takeWhile` up to the first slash. -/
theorem takeWhile_slashFree : ∀ (a t : List Char), '/' ∉ a →
    (t = [] ∨ ∃ t2, t = '/' :: t2) →
    (a ++ t).takeWhile (fun c => c != '/') = a
  | [], t, _, ht => by
    rcases ht with rfl | ⟨t2, rfl⟩
    · rfl
    · simp [List.takeWhile_cons]
  | c :: cs, t, ha, ht => by
    have hc : (c != '/') = true := by
      simp only [bne_iff_ne, ne_eq]
      intro he
      exact ha (he ▸ List.mem_cons_self c cs)
    simp only [List.cons_append, List.takeWhile_cons, hc, if_true]
    rw [takeWhile_slashFree cs t (fun hm => ha (List.mem_cons_of_mem c hm)) ht]

/-- Two slash-free names followed by empty-or-slash-headed tails under the
same prefix agree when the full paths agree. -/
theorem name_eq_of_shape (pre a b : String) (t u : List Char)
    (ha : '/' ∉ a.data) (hb : '/' ∉ b.data)
    (ht : t = [] ∨ ∃ t2, t = '/' :: t2) (hu : u = [] ∨ ∃ u2, u = '/' :: u2)
    (heq : pre.data ++ a.data ++ t = pre.data ++ b.data ++ u) : a = b := by
  rw [List.append_assoc, List.append_assoc] at heq
  have h2 : a.data ++ t = b.data ++ u := List.append_cancel_left heq
  have h3 := takeWhile_slashFree a.data t ha ht
  have h4 := takeWhile_slashFree b.data u hb hu
  rw [h2, h4] at h3
  exact (String.ext h3).symm

/-- A well-formed node has a slash-free name. -/
theorem wfNode_slashFree (n : FsNode) (h : wfNode n = true) :
    '/' ∉ (nodeName n).data := by
  cases n with
  | file name size mt canOpen =>
    simp only [wfNode, Bool.and_eq_true] at h
    simpa [nodeName, List.contains, List.elem_iff] using h.2
  | dir name children =>
    simp only [wfNode, Bool.and_eq_true] at h
    simpa [nodeName, List.contains, List.elem_iff] using h.1.2

/-- Well-formedness of a listing covers its members. -/
theorem wfList_mem_wfNode : ∀ (l : List FsNode), wfList l = true →
    ∀ n ∈ l, wfNode n = true
  | [], _, n, h => absurd h (List.not_mem_nil n)
  | x :: rest, hwf, n, h => by
    have hw : wfNode x = true ∧
        ((topNames rest).all (fun y => y != nodeName x)) = true ∧
        wfList rest = true := by
      simpa [wfList, Bool.and_eq_true, and_assoc] using hwf
    rcases List.mem_cons.mp h with h1 | h2
    · exact h1 ▸ hw.1
    · exact wfList_mem_wfNode rest hw.2.2 n h2

mutual

/-- Every path produced under a node starts with the prefix, the node's
name, and then either nothing or a slash-headed remainder. -/
theorem allFilesNode_shape :
    ∀ (n : FsNode) (pre : String) (pr : String × String),
      pr ∈ allFilesNode pre n →
      ∃ t, pr.1.data = pre.data ++ (nodeName n).data ++ t ∧
        (t = [] ∨ ∃ t2, t = '/' :: t2)
  | .file name size mt canOpen, pre, pr => by
    intro h
    simp only [allFilesNode, List.mem_singleton] at h
    subst h
    exact ⟨[], by simp [nodeName, String.data_append], Or.inl rfl⟩
  | .dir name children, pre, pr => by
    intro h
    simp only [allFilesNode] at h
    obtain ⟨n2, _, t2, ht2, _⟩ :=
      allFiles_shape children (pre ++ name ++ "/") pr h
    refine ⟨'/' :: ((nodeName n2).data ++ t2), ?_, Or.inr ⟨_, rfl⟩⟩
    rw [ht2]
    simp [nodeName, String.data_append, List.append_assoc]

/-- Every path produced under a listing belongs to one of its nodes. -/
theorem allFiles_shape :
    ∀ (l : List FsNode) (pre : String) (pr : String × String),
      pr ∈ allFiles pre l →
      ∃ n ∈ l, ∃ t, pr.1.data = pre.data ++ (nodeName n).data ++ t ∧
        (t = [] ∨ ∃ t2, t = '/' :: t2)
  | [], pre, pr => by
    intro h
    simp [allFiles] at h
  | n :: rest, pre, pr => by
    intro h
    simp only [allFiles, List.mem_append] at h
    rcases h with h | h
    · obtain ⟨t, ht, hsh⟩ := allFilesNode_shape n pre pr h
      exact ⟨n, List.mem_cons_self n rest, t, ht, hsh⟩
    · obtain ⟨n2, hn2, hrest⟩ := allFiles_shape rest pre pr h
      exact ⟨n2, List.mem_cons_of_mem _ hn2, hrest⟩

end

mutual

/-- On a well-formed node the walked file paths are pairwise distinct. -/
theorem allFilesNode_nodup :
    ∀ (n : FsNode) (pre : String), wfNode n = true →
      ((allFilesNode pre n).map (·.1)).Nodup
  | .file name size mt canOpen, pre, _ => by simp [allFilesNode]
  | .dir name children, pre, h => by
    simp only [allFilesNode]
    have hw : wfList children = true := by
      simp only [wfNode, Bool.and_eq_true] at h
      exact h.2
    exact allFiles_nodup children (pre ++ name ++ "/") hw

/-- On a well-formed listing the walked file paths are pairwise distinct. -/
theorem allFiles_nodup :
    ∀ (l : List FsNode) (pre : String), wfList l = true →
      ((allFiles pre l).map (·.1)).Nodup
  | [], pre, _ => by simp [allFiles]
  | n :: rest, pre, h => by
    have hw : wfNode n = true ∧
        ((topNames rest).all (fun y => y != nodeName n)) = true ∧
        wfList rest = true := by
      simpa [wfList, Bool.and_eq_true, and_assoc] using h
    simp only [allFiles, List.map_append]
    rw [List.nodup_append]
    refine ⟨allFilesNode_nodup n pre hw.1, allFiles_nodup rest pre hw.2.2, ?_⟩
    intro p hp1 hp2
    obtain ⟨pr1, hpr1, hp1e⟩ := List.mem_map.mp hp1
    obtain ⟨pr2, hpr2, hp2e⟩ := List.mem_map.mp hp2
    obtain ⟨t, ht, hts⟩ := allFilesNode_shape n pre pr1 hpr1
    obtain ⟨n2, hn2mem, u, hu, hus⟩ := allFiles_shape rest pre pr2 hpr2
    have heq : pre.data ++ (nodeName n).data ++ t =
        pre.data ++ (nodeName n2).data ++ u := by
      rw [← ht, ← hu, hp1e, hp2e]
    have hs1 : '/' ∉ (nodeName n).data := wfNode_slashFree n hw.1
    have hs2 : '/' ∉ (nodeName n2).data :=
      wfNode_slashFree n2 (wfList_mem_wfNode rest hw.2.2 n2 hn2mem)
    have hnameEq : nodeName n = nodeName n2 :=
      name_eq_of_shape pre _ _ t u hs1 hs2 hts hus heq
    have hne : nodeName n2 ≠ nodeName n := by
      have hal := List.all_eq_true.mp hw.2.1 (nodeName n2)
        (List.mem_map_of_mem nodeName hn2mem)
      simpa [bne_iff_ne] using hal
    exact hne hnameEq.symm

end

/-- A successful scan of a well-formed tree yields pairwise-distinct item
paths. -/
theorem items_paths_nodup (m : Metadata) (root : List FsNode)
    (items : List Item) (hwf : wfList root = true)
    (h : walkList m "" root = .ok items) :
    (items.map (·.Path)).Nodup := by
  rw [walkList_paths m root "" items h]
  have hfull : ((allFiles "" root).map (·.1)).Nodup :=
    allFiles_nodup root "" hwf
  exact List.Nodup.sublist ((List.filter_sublist _).map _) hfull

/-- C9 (builder postcondition): on a well-formed directory tree, a failing
`GenerateFeed` returns neither feed bytes nor a file map, and a successful
one returns the rendered feed together with a file map that binds exactly
the scanned items' relative paths, each to the `FileInfo` whose absolute
path is the local root joined with the relative path and whose MIME type,
size and modification time are those of the item's enclosure. -/
theorem claim_C9_generateFeed_postcondition (m : Metadata)
    (root : List FsNode) (hwf : wfList root = true) :
    (∀ e, (m.GenerateFeed root).err = some e →
      (m.GenerateFeed root).feed = none ∧
      (m.GenerateFeed root).files = none) ∧
    (∀ items, m.Items root = .ok items →
      (m.GenerateFeed root).err = none ∧
      (m.GenerateFeed root).feed = some (feedRender m items) ∧
      (m.GenerateFeed root).files = some (mkFiles m items) ∧
      ∀ (p : String) (fi : FileInfo),
        (mkFiles m items).lookup p = some fi ↔
          ∃ it ∈ items, it.Path = p ∧
            fi = { Path := joinPath m.localRoot it.Path
                   MimeType := it.Enclosure.Typ
                   Size := it.Enclosure.Length
                   ModTime := it.ModTime }) := by
  constructor
  · intro e he
    unfold Metadata.GenerateFeed at he ⊢
    cases hI : m.Items root with
    | error e2 => simp [hI]
    | ok items => rw [hI] at he; cases he
  · intro items hI
    have hwalk : walkList m "" root = .ok items := by
      unfold Metadata.Items at hI
      by_cases hg : m.externalUrl.data.getLast? = some '/'
      · rwa [if_pos hg] at hI
      · rw [if_neg hg] at hI
        cases hI
    have hnd : (items.map (·.Path)).Nodup :=
      items_paths_nodup m root items hwf hwalk
    unfold Metadata.GenerateFeed
    rw [hI]
    refine ⟨rfl, rfl, rfl, ?_⟩
    intro p fi
    exact lookup_mkFiles m items hnd p fi

/-- Witness for C9: in the example build, the key `song.mp3` is bound to
exactly the projected `FileInfo`, obtained through the postcondition. -/
theorem claim_C9_witness :
    (mkFiles exM exItems).lookup "song.mp3" =
      some { Path := "media/song.mp3", MimeType := "audio/mpeg",
             Size := 100, ModTime := 0 } := by
  have h := ((claim_C9_generateFeed_postcondition exM exFs (by decide)).2
    exItems rfl).2.2.2 "song.mp3"
    { Path := "media/song.mp3", MimeType := "audio/mpeg",
      Size := 100, ModTime := 0 }
  refine h.mpr ⟨⟨"song", "song.mp3", 0, "http://h/song.mp3", "",
    ⟨"http://h/song.mp3", 100, "audio/mpeg"⟩⟩, by decide, rfl, by decide⟩

/-! ## Snapshot atomicity of the store -/

/-- The invariant holds initially. -/
theorem storeInv_init (n : Nat) : StoreInv (initSys n) := by
  refine ⟨by simp [initSys], ?_, ?_, ?_, ?_, ?_, ?_⟩ <;>
    simp [initSys]

/-- The invariant is preserved by every scheduler step. -/
theorem storeInv_step {n : Nat} {s s' : Sys n} (h : StoreStep s s')
    (hi : StoreInv s) : StoreInv s' := by
  obtain ⟨i1, i2, i3, i4, i5, i6, i7⟩ := hi
  cases h with
  | wlock hpc hr hseq =>
    subst hseq
    exact ⟨by dsimp; omega,
      fun i _ => hr i,
      fun _ => i3 (by omega),
      fun h2 => by dsimp at h2; omega,
      fun h2 => by dsimp at h2; omega,
      fun i h2 => i6 i h2,
      fun i h2 => i7 i h2⟩
  | wsetFeed hpc hseq =>
    subst hseq
    refine ⟨by dsimp; omega, fun i h2 => i2 i (by omega),
      fun h2 => by dsimp at h2; omega, fun _ => ⟨rfl, (i3 (by omega)).2⟩,
      fun h2 => by dsimp at h2; omega, ?_, fun i h2 => i7 i h2⟩
    intro i h2
    dsimp at h2
    exact absurd ⟨by omega, by omega⟩ (i2 i (by omega))
  | wsetFiles hpc hseq =>
    subst hseq
    refine ⟨by dsimp; omega, fun i h2 => i2 i (by omega),
      fun h2 => by dsimp at h2; omega, fun h2 => by dsimp at h2; omega,
      fun _ => ⟨(i4 hpc).1, rfl⟩, ?_, fun i h2 => i7 i h2⟩
    intro i h2
    dsimp at h2
    exact absurd ⟨by omega, by omega⟩ (i2 i (by omega))
  | wunlock hpc hseq =>
    subst hseq
    exact ⟨by dsimp; omega, fun i h2 => by dsimp at h2; omega,
      fun h2 => by dsimp at h2; omega, fun h2 => by dsimp at h2; omega,
      fun _ => i5 (by omega),
      fun i h2 => by
        dsimp at h2
        exact absurd ⟨by omega, by omega⟩ (i2 i (by omega)),
      fun i h2 => i7 i h2⟩
  | rlock i hpc hw hseq =>
    subst hseq
    refine ⟨i1, fun j hj => absurd hj hw, i3, i4, i5, ?_, ?_⟩
    · intro j hj
      dsimp at hj ⊢
      by_cases hji : j = i
      · subst hji
        rw [Function.update_same] at hj
        omega
      · rw [Function.update_noteq hji] at hj
        exact i6 j hj
    · intro j hj
      dsimp at hj ⊢
      by_cases hji : j = i
      · subst hji
        rw [Function.update_same] at hj
        omega
      · rw [Function.update_noteq hji] at hj
        exact i7 j hj
  | rgetFeed i hpc hseq =>
    subst hseq
    refine ⟨i1, ?_, i3, i4, i5, ?_, ?_⟩
    · intro j hj
      dsimp
      by_cases hji : j = i
      · subst hji
        have := i2 j hj
        rw [hpc] at this
        exact absurd ⟨by omega, by omega⟩ this
      · rw [Function.update_noteq hji]
        exact i2 j hj
    · intro j hj
      dsimp at hj ⊢
      by_cases hji : j = i
      · subst hji
        rw [Function.update_same]
      · rw [Function.update_noteq hji] at hj
        rw [Function.update_noteq hji]
        exact i6 j hj
    · intro j hj
      dsimp at hj ⊢
      by_cases hji : j = i
      · subst hji
        rw [Function.update_same] at hj
        omega
      · rw [Function.update_noteq hji] at hj
        rw [Function.update_noteq hji]
        exact i7 j hj
  | rgetFiles i hpc hseq =>
    subst hseq
    refine ⟨i1, ?_, i3, i4, i5, ?_, ?_⟩
    · intro j hj
      dsimp
      by_cases hji : j = i
      · subst hji
        have := i2 j hj
        rw [hpc] at this
        exact absurd ⟨by omega, by omega⟩ this
      · rw [Function.update_noteq hji]
        exact i2 j hj
    · intro j hj
      dsimp at hj ⊢
      by_cases hji : j = i
      · subst hji
        rw [Function.update_same] at hj
        omega
      · rw [Function.update_noteq hji] at hj
        exact i6 j hj
    · intro j hj
      dsimp at hj ⊢
      by_cases hji : j = i
      · subst hji
        rw [Function.update_same]
        have hcoh : s.feedB = s.filesB := by
          have hnw : ¬(1 ≤ s.wpc ∧ s.wpc ≤ 3) := by
            intro hcs
            exact i2 j hcs ⟨by omega, by omega⟩
          by_cases h0 : s.wpc ≤ 1
          · have := i3 h0
            omega
          · have := i5 (by omega)
            omega
        rw [← hcoh]
        exact i6 j hpc
      · rw [Function.update_noteq hji] at hj
        rw [Function.update_noteq hji]
        exact i7 j hj
  | runlock i hpc hseq =>
    subst hseq
    refine ⟨i1, ?_, i3, i4, i5, ?_, ?_⟩
    · intro j hj
      dsimp
      by_cases hji : j = i
      · subst hji
        have := i2 j hj
        rw [hpc] at this
        exact absurd ⟨by omega, by omega⟩ this
      · rw [Function.update_noteq hji]
        exact i2 j hj
    · intro j hj
      dsimp at hj ⊢
      by_cases hji : j = i
      · subst hji
        rw [Function.update_same] at hj
        omega
      · rw [Function.update_noteq hji] at hj
        exact i6 j hj
    · intro j hj
      dsimp at hj ⊢
      by_cases hji : j = i
      · subst hji
        exact i7 j (by omega)
      · rw [Function.update_noteq hji] at hj
        exact i7 j hj

/-- Every reachable state satisfies the invariant. -/
theorem storeInv_reachable {n : Nat} {s : Sys n} (h : ReachableStore s) :
    StoreInv s := by
  unfold ReachableStore at h
  induction h with
  | refl => exact storeInv_init n
  | tail hsteps hstep ih => exact storeInv_step hstep ih

/-- C1 (snapshot atomicity): in every state reachable by interleaving any
number of concurrent handler reads with the refresh loop's replace — under
the reader/writer-lock semantics of the store — every reader that has read
both fields observed feed bytes and file map installed by the same build:
the two fields are swapped together under the write lock and each handler
holds the read lock across both accesses, so no torn pair is observable. -/
theorem claim_C1_snapshot_atomicity {n : Nat} (s : Sys n)
    (hr : ReachableStore s) (i : Fin n) (hdone : 3 ≤ s.rpc i) :
    s.obsF i = s.obsM i :=
  (storeInv_reachable hr).2.2.2.2.2.2 i hdone

/-- Witness for C1: one reader completes a read concurrently with the
writer still idle; the observed pair is coherent. -/
theorem claim_C1_witness :
    ReachableStore (n := 1)
      { wpc := 0, feedB := 0, filesB := 0, rpc := fun _ => 3,
        obsF := fun _ => 0, obsM := fun _ => 0 } ∧
    ({ wpc := 0, feedB := 0, filesB := 0, rpc := fun _ => 3,
       obsF := fun _ => 0, obsM := fun _ => 0 } : Sys 1).obsF 0 =
      ({ wpc := 0, feedB := 0, filesB := 0, rpc := fun _ => 3,
         obsF := fun _ => 0, obsM := fun _ => 0 } : Sys 1).obsM 0 := by
  have h1 : StoreStep (initSys 1)
      { wpc := 0, feedB := 0, filesB := 0, rpc := fun _ => 1,
        obsF := fun _ => 0, obsM := fun _ => 0 } := by
    refine StoreStep.rlock _ _ 0 rfl (by simp [initSys]) ?_
    unfold initSys
    congr 1
    funext j
    fin_cases j
    simp
  have h2 : StoreStep
      ({ wpc := 0, feedB := 0, filesB := 0, rpc := fun _ => 1,
         obsF := fun _ => 0, obsM := fun _ => 0 } : Sys 1)
      { wpc := 0, feedB := 0, filesB := 0, rpc := fun _ => 2,
        obsF := fun _ => 0, obsM := fun _ => 0 } := by
    refine StoreStep.rgetFeed _ _ 0 rfl ?_
    congr 1 <;> (funext j; fin_cases j; simp)
  have h3 : StoreStep
      ({ wpc := 0, feedB := 0, filesB := 0, rpc := fun _ => 2,
         obsF := fun _ => 0, obsM := fun _ => 0 } : Sys 1)
      { wpc := 0, feedB := 0, filesB := 0, rpc := fun _ => 3,
        obsF := fun _ => 0, obsM := fun _ => 0 } := by
    refine StoreStep.rgetFiles _ _ 0 rfl ?_
    congr 1 <;> (funext j; fin_cases j; simp)
  have hreach : ReachableStore (n := 1)
      { wpc := 0, feedB := 0, filesB := 0, rpc := fun _ => 3,
        obsF := fun _ => 0, obsM := fun _ => 0 } :=
    Relation.ReflTransGen.tail
      (Relation.ReflTransGen.tail (Relation.ReflTransGen.single h1) h2) h3
  exact ⟨hreach, claim_C1_snapshot_atomicity _ hreach 0 (by norm_num)⟩
